import Mathlib

/-!
Verification development for the arXiv listing spider
(src/daily_arxiv/daily_arxiv/spiders/arxiv.py).

The Python code is shallowly embedded below.  DOM access (CSS/XPath
selectors), URL joining and the HTTP transport are external collaborators:
a listing response is modelled as the data those selectors return
(heading text fragments, per-entry link targets and subject text
fragments), and hrefs are taken as already absolute.  Every string
operation and regular expression of the source is modelled explicitly.
-/

/-- Word character in the sense of the regex escape for words
(ASCII letters, digits, underscore). -/
def isWordChar (c : Char) : Bool := c.isAlphanum || c = '_'

/-- Python str.lower for the ASCII range (all inputs of interest are ASCII). -/
def lowerStr (s : String) : String := ⟨s.data.map Char.toLower⟩

/-- Python str.strip: drop leading and trailing whitespace. -/
def pyStrip (s : String) : String :=
  ⟨((s.data.dropWhile Char.isWhitespace).reverse.dropWhile Char.isWhitespace).reverse⟩

/-- Python sep.join(parts). -/
def joinSep (sep : String) : List String → String
  | [] => ""
  | [x] => x
  | x :: y :: rest => x ++ sep ++ joinSep sep (y :: rest)

/-- Python "".join(parts). -/
def concatAll : List String → String
  | [] => ""
  | x :: rest => x ++ concatAll rest

/-- Helper for splitComma; accumulates the current piece in reverse. -/
def splitCommaAux : List Char → List Char → List String
  | [], acc => [⟨acc.reverse⟩]
  | c :: rest, acc =>
    if c = ',' then ⟨acc.reverse⟩ :: splitCommaAux rest [] else splitCommaAux rest (c :: acc)

/-- Python s.split(",") -- splits at every comma, keeping empty pieces. -/
def splitComma (s : String) : List String := splitCommaAux s.data []

/-- Replace every (non-overlapping, left-to-right) occurrence of pat by rep,
as Python str.replace does.  Fuel-driven recursion; fuel is the input length. -/
def replaceAllAux (pat rep : List Char) : Nat → List Char → List Char
  | _, [] => []
  | 0, l => l
  | fuel + 1, c :: rest =>
    if pat.isPrefixOf (c :: rest) then
      rep ++ replaceAllAux pat rep fuel ((c :: rest).drop pat.length)
    else c :: replaceAllAux pat rep fuel rest

/-- Python abs_url.replace("/abs/", "/pdf/"). -/
def absToPdf (s : String) : String :=
  ⟨replaceAllAux "/abs/".data "/pdf/".data s.data.length s.data⟩

/-- Generic leftmost regex-style search: try the position matcher at every
suffix, leftmost success wins (the behaviour of re.search). -/
def searchAux (f : List Char → Option String) : List Char → Option String
  | [] => f []
  | c :: rest =>
    match f (c :: rest) with
    | some r => some r
    | none => searchAux f rest

/-- Attempt, at one position, the id pattern of the source: the literal
"/abs/" followed by four digits, a dot and five digits (the capture group
is the digits-dot-digits identifier). -/
def matchAbsIdAt (cs : List Char) : Option String :=
  if "/abs/".data.isPrefixOf cs then
    let rest := cs.drop 5
    let d4 := rest.take 4
    if d4.length == 4 && d4.all Char.isDigit then
      match rest.drop 4 with
      | '.' :: rest2 =>
        let d5 := rest2.take 5
        if d5.length == 5 && d5.all Char.isDigit then some ⟨d4 ++ '.' :: d5⟩ else none
      | _ => none
    else none
  else none

/-- Model of re.search for the identifier pattern on abs_url
(source line: mid = re.search(...); arxiv_id = mid.group(1)). -/
def findAbsId (s : String) : Option String := searchAux matchAbsIdAt s.data

/-- Attempt, at one position, the canonical-version pattern: "/abs/",
four digits, dot, five digits, then the captured revision tag -- letter v
followed by one or more digits -- which must extend to the end of the
string (the pattern is end-anchored in the source). -/
def matchCanonicalAt (cs : List Char) : Option String :=
  if "/abs/".data.isPrefixOf cs then
    let rest := cs.drop 5
    let d4 := rest.take 4
    if d4.length == 4 && d4.all Char.isDigit then
      match rest.drop 4 with
      | '.' :: rest2 =>
        let d5 := rest2.take 5
        if d5.length == 5 && d5.all Char.isDigit then
          match rest2.drop 5 with
          | 'v' :: ds => if !ds.isEmpty && ds.all Char.isDigit then some ⟨'v' :: ds⟩ else none
          | _ => none
        else none
      | _ => none
    else none
  else none

/-- Model of the canonical-link revision extraction (re.search of the
end-anchored pattern on the canonical href). -/
def canonVersion (s : String) : Option String := searchAux matchCanonicalAt s.data

/-- Attempt, at one position, the standalone revision-token pattern
(word-bounded letter v followed by digits); prev is the preceding
character, used for the left word boundary. -/
def matchVTokenAt (prev : Option Char) : List Char → Option String
  | 'v' :: rest =>
    if (match prev with | none => true | some p => !isWordChar p) then
      let ds := rest.takeWhile Char.isDigit
      if !ds.isEmpty then
        match rest.drop ds.length with
        | [] => some ⟨'v' :: ds⟩
        | c :: _ => if !isWordChar c then some ⟨'v' :: ds⟩ else none
      else none
    else none
  | _ => none

/-- Leftmost search for the word-bounded revision token, tracking the
previous character for the left boundary. -/
def searchVAux : Option Char → List Char → Option String
  | _, [] => none
  | prev, c :: rest =>
    match matchVTokenAt prev (c :: rest) with
    | some r => some r
    | none => searchVAux (some c) rest

/-- Model of re.search for a word-bounded revision token in the primary
heading text. -/
def headingVersion (s : String) : Option String := searchVAux none s.data

/-- Word-boundary check plus literal match of p at position i of t:
the phrase must be preceded and followed by a non-word character or the
string edge (the boundary escapes around the phrase patterns). -/
def boundaryMatchAt (t : List Char) (i : Nat) (p : List Char) : Bool :=
  p.isPrefixOf (t.drop i)
  && (i == 0 || !isWordChar (t.getD (i - 1) ' '))
  && !isWordChar (t.getD (i + p.length) ' ')

/-- Whether the word-bounded phrase pat occurs anywhere in text. -/
def containsWordPhrase (text : String) (pat : String) : Bool :=
  (List.range (text.data.length + 1)).any fun i => boundaryMatchAt text.data i pat.data

/-- Phrase with an optional trailing plural s, as in the heading regexes
of the source.  Trying the plural first mirrors greedy matching; a
singular hit whose next character is the letter s is rejected by the
boundary, exactly as the regex engine would. -/
def containsWordOptS (text pat : String) : Bool :=
  containsWordPhrase text (pat ++ "s") || containsWordPhrase text pat

/-- Heading matcher for the New section: word-bounded "new submission"
with optional plural, on the lowercased heading. -/
def matchesNewHeading (hl : String) : Bool := containsWordOptS hl "new submission"

/-- Heading matcher for the Cross section: word-bounded "cross-list" /
"crosslist" (optional hyphen, optional plural) or "cross submission"
with optional plural. -/
def matchesCrossHeading (hl : String) : Bool :=
  containsWordOptS hl "cross-list" || containsWordOptS hl "crosslist"
    || containsWordOptS hl "cross submission"

/-- Heading matcher for the Replacement section: word-bounded
"replacement" with optional plural, or "replacement submission" with
optional plural (the second pattern of the source, kept for fidelity
although subsumed by the first). -/
def matchesReplHeading (hl : String) : Bool :=
  containsWordOptS hl "replacement" || containsWordOptS hl "replacement submission"

/-- Section classification of a heading, as in the h3 branch of parse:
the heading is lowercased, the three matchers are tried in order, and an
unmatched heading yields the Other state with rank 3. -/
def classifySection (heading : String) : String × Nat :=
  let hl := lowerStr heading
  if matchesNewHeading hl then ("new", 0)
  else if matchesCrossHeading hl then ("cross", 1)
  else if matchesReplHeading hl then ("repl", 2)
  else ("other", 3)

/-- Lowercase letter or hyphen, the character class of the subject-code
pattern prefix. -/
def isLowerDash (c : Char) : Bool := c.isLower || c = '-'

/-- Attempt, at one position, the bracketed subject-code pattern: an
opening parenthesis, one or more lowercase letters or hyphens, a dot,
exactly two uppercase letters, and a closing parenthesis.  Returns the
captured code and the remaining input after the match. -/
def matchCodeAt : List Char → Option (String × List Char)
  | '(' :: rest =>
    let run := rest.takeWhile isLowerDash
    if run.isEmpty then none
    else
      match rest.drop run.length with
      | '.' :: c1 :: c2 :: ')' :: after =>
        if c1.isUpper && c2.isUpper then some (⟨run ++ '.' :: [c1, c2]⟩, after) else none
      | _ => none
  | _ => none

/-- Fuel-driven scan for all non-overlapping subject-code matches, left
to right, resuming after each match (the behaviour of re.findall). -/
def findCodesAux : Nat → List Char → List String
  | 0, _ => []
  | _, [] => []
  | fuel + 1, c :: rest =>
    match matchCodeAt (c :: rest) with
    | some (code, after) => code :: findCodesAux fuel after
    | none => findCodesAux fuel rest

/-- Model of re.findall for the bracketed subject-code pattern. -/
def findCodes (s : String) : List String := findCodesAux s.data.length s.data

/-- Attempt, at one position, the listing-URL pattern: the literal
"/list/", one or more non-slash characters (captured), then "/new". -/
def matchListCatAt (cs : List Char) : Option String :=
  if "/list/".data.isPrefixOf cs then
    let rest := cs.drop 6
    let run := rest.takeWhile (fun c => c ≠ '/')
    if run.isEmpty then none
    else if "/new".data.isPrefixOf (rest.drop run.length) then some ⟨run⟩ else none
  else none

/-- Source-category extraction from the response URL (re.search of the
listing pattern; the empty string when there is no match, as in the
source). -/
def extractSourceCat (url : String) : String := (searchAux matchListCatAt url.data).getD ""

/-- The category priority dictionary lookup with default 99:
CAT_PRIORITY.get(c, 99) where CAT_PRIORITY maps math.QA to 0 and
math.RT to 1.  Pure and total: any string is accepted. -/
def catPriority (c : String) : Nat :=
  if c = "math.QA" then 0 else if c = "math.RT" then 1 else 99

/-- The sort key comparison used when ordering categories at startup. -/
def catLe (a b : String) : Prop := catPriority a ≤ catPriority b

instance : DecidableRel catLe :=
  fun a b => inferInstanceAs (Decidable (catPriority a ≤ catPriority b))

instance : IsTotal String catLe := ⟨fun _ _ => Nat.le_total _ _⟩

instance : IsTrans String catLe := ⟨fun _ _ _ => Nat.le_trans⟩

/-- Keep the first occurrence of each element.  Python materialises the
subject codes as a set; only membership and emptiness of that set are
ever observed downstream, so the order chosen here is immaterial. -/
def dedupFirst (l : List String) : List String :=
  l.foldl (fun acc c => if c ∈ acc then acc else acc ++ [c]) []

/-- The category list built by the constructor: split the environment
string at commas, strip each piece, drop empty pieces, and stably sort
ascending by catPriority.  Note the source performs no deduplication of
this list. -/
def initCats (categories : String) : List String :=
  List.insertionSort catLe (((splitComma categories).map pyStrip).filter (fun c => c ≠ ""))

/-- start_urls: one listing URL per element of the sorted category list. -/
def startUrls (cats : List String) : List String :=
  cats.map (fun c => "https://arxiv.org/list/" ++ c ++ "/new")

/-- The dt part of a listing entry, as seen through the two CSS lookups
of the source: the href of the link titled Abstract, and the href of the
first link whose target contains "/abs/". -/
structure DtPart where
  titleAbstractHref : Option String
  absLinkHref : Option String
deriving DecidableEq

/-- The dd part of a listing entry: the text fragments of the
list-subjects element. -/
structure DdPart where
  subjTexts : List String
deriving DecidableEq

/-- A heading or list block under the listing container, in document
order (the XPath of the source selects exactly the h3 and dl children). -/
inductive Block where
  | h3 (texts : List String)
  | dl (dts : List DtPart) (dds : List DdPart)
deriving DecidableEq

/-- The meta_item dictionary built for a dispatched request (a Stub in
the spec's vocabulary).  The field sec is the dictionary key named
section in the source; that word is reserved in Lean. -/
structure Stub where
  id : String
  sec : String
  abs : String
  pdf : String
  categories : List String
  cat_priority : Nat
  section_rank : Nat
deriving DecidableEq

/-- A resolved record: the stub fields plus the resolved version. -/
structure Item where
  id : String
  sec : String
  abs : String
  pdf : String
  categories : List String
  cat_priority : Nat
  section_rank : Nat
  version : String
deriving DecidableEq

/-- An emitted record: the item with the two internal sort-key fields
popped before the yield. -/
structure OutRecord where
  id : String
  sec : String
  abs : String
  pdf : String
  categories : List String
  version : String
deriving DecidableEq

/-- Attach the resolved version to a stub (item = dict(meta_item);
item update with the version). -/
def mkItem (s : Stub) (v : String) : Item :=
  { id := s.id, sec := s.sec, abs := s.abs, pdf := s.pdf, categories := s.categories,
    cat_priority := s.cat_priority, section_rank := s.section_rank, version := v }

/-- Pop the cat_priority and section_rank keys before emission. -/
def stripItem (it : Item) : OutRecord :=
  { id := it.id, sec := it.sec, abs := it.abs, pdf := it.pdf, categories := it.categories,
    version := it.version }

/-- Python truthiness of an optional string: None and the empty string
are both falsy. -/
def truthyHref : Option String → Option String
  | none => none
  | some s => if s = "" then none else some s

/-- The href chain of the source: take the Abstract-titled link, fall
back to the abs-containing link when the first is missing or empty, and
yield nothing when the result is still missing or empty. -/
def absHrefOf (dt : DtPart) : Option String :=
  match truthyHref dt.titleAbstractHref with
  | some s => some s
  | none => truthyHref dt.absLinkHref

/-- The subjects text: strip each fragment, drop empty ones, join with
single spaces. -/
def subjectsTextOf (dd : DdPart) : String :=
  joinSep " " ((dd.subjTexts.map pyStrip).filter (fun t => t ≠ ""))

/-- Processing of one dt/dd pair, threading the seen-identifier registry:
locate the identifier link (silently skipping the entry when absent or
malformed), deduplicate against the registry -- the identifier is added
before the category filter is evaluated -- then include the entry when
its declared codes intersect the target set or no subject text was
extracted, and skip it (with only a debug log) otherwise. -/
def parseEntry (targets : List String) (catPrio : Nat) (secText : String) (secRank : Nat)
    (seen : List String) (dt : DtPart) (dd : DdPart) : List String × Option Stub :=
  match absHrefOf dt with
  | none => (seen, none)
  | some absUrl =>
    match findAbsId absUrl with
    | none => (seen, none)
    | some arxivId =>
      if arxivId ∈ seen then (seen, none)
      else
        let seen' := seen ++ [arxivId]
        let subjectsText := subjectsTextOf dd
        let paperCategories := dedupFirst (findCodes subjectsText)
        if paperCategories.any (fun c => targets.contains c) || subjectsText == "" then
          (seen', some { id := arxivId, sec := secText, abs := absUrl, pdf := absToPdf absUrl,
                         categories := if subjectsText == "" then [] else paperCategories,
                         cat_priority := catPrio, section_rank := secRank })
        else (seen', none)

/-- Left-to-right scan of the zipped dt/dd pairs of one dl block,
threading the registry and collecting dispatched stubs in order. -/
def processEntries (targets : List String) (catPrio : Nat) (secText : String) (secRank : Nat) :
    List (DtPart × DdPart) → List String → List String × List Stub
  | [], seen => (seen, [])
  | (dt, dd) :: rest, seen =>
    match parseEntry targets catPrio secText secRank seen dt dd with
    | (seen', st) =>
      match processEntries targets catPrio secText secRank rest seen' with
      | (seen'', stubs) => (seen'', st.toList ++ stubs)

/-- The heading string of an h3 block: concatenate the text fragments
and strip. -/
def headingOf (texts : List String) : String := pyStrip (concatAll texts)

/-- The block scan of parse: one mutable current-section state, updated
by each heading and consumed by each list block. -/
def processBlocks (targets : List String) (catPrio : Nat) :
    List Block → String → Nat → List String → List String × List Stub
  | [], _, _, seen => (seen, [])
  | Block.h3 texts :: rest, _, _, seen =>
    match classifySection (headingOf texts) with
    | (t, r) => processBlocks targets catPrio rest t r seen
  | Block.dl dts dds :: rest, secText, secRank, seen =>
    match processEntries targets catPrio secText secRank (dts.zip dds) seen with
    | (seen', stubs) =>
      match processBlocks targets catPrio rest secText secRank seen' with
      | (seen'', stubs') => (seen'', stubs ++ stubs')

/-- The whole of parse for one listing response: derive the source
category (hence the priority) from the URL, then scan the blocks with
the section state initialised to other with rank 3. -/
def parseListing (targets : List String) (url : String) (blocks : List Block)
    (seen : List String) : List String × List Stub :=
  processBlocks targets (catPriority (extractSourceCat url)) blocks "other" 3 seen

/-- The section state in effect after a prefix of blocks, starting from
a given state: headings overwrite it, list blocks leave it unchanged. -/
def sectionFold (s : String × Nat) : List Block → String × Nat
  | [] => s
  | Block.h3 texts :: rest => sectionFold (classifySection (headingOf texts)) rest
  | Block.dl _ _ :: rest => sectionFold s rest

/-- Listing pages visited one after the other (CONCURRENT_REQUESTS is 1
in the source's custom_settings, and the transport is an external
collaborator), threading the process-wide registry. -/
def runListings (targets : List String) :
    List (String × List Block) → List String → List String × List Stub
  | [], seen => (seen, [])
  | (url, blocks) :: rest, seen =>
    match parseListing targets url blocks seen with
    | (seen', stubs) =>
      match runListings targets rest seen' with
      | (seen'', stubs') => (seen'', stubs ++ stubs')

/-- Revision extraction of parse_abs: start from the default, let a
canonical-link match overwrite it, and scan the joined h1 text only when
the current value is still the default string (note: also when the
canonical link itself yielded the tag v1). -/
def resolveVersion (canonical : Option String) (h1texts : List String) : String :=
  let version := "v1"
  let version :=
    match canonical with
    | none => version
    | some c =>
      match canonVersion c with
      | some v => v
      | none => version
  if version = "v1" then
    match headingVersion (joinSep " " h1texts) with
    | some v => v
    | none => version
  else version

/-- Comparison of the first sort pass: identifier descending
(list.sort keyed on the id with reverse set, which is stable). -/
def idDescLe (x y : Item) : Prop := y.id ≤ x.id

/-- Comparison of the second sort pass: section rank ascending. -/
def sectionRankLe (x y : Item) : Prop := x.section_rank ≤ y.section_rank

/-- Comparison of the third sort pass: category priority ascending. -/
def catPriorityLe (x y : Item) : Prop := x.cat_priority ≤ y.cat_priority

instance : DecidableRel idDescLe := fun x y => inferInstanceAs (Decidable (y.id ≤ x.id))

instance : DecidableRel sectionRankLe :=
  fun x y => inferInstanceAs (Decidable (x.section_rank ≤ y.section_rank))

instance : DecidableRel catPriorityLe :=
  fun x y => inferInstanceAs (Decidable (x.cat_priority ≤ y.cat_priority))

instance : IsTotal Item idDescLe := ⟨fun a b => le_total b.id a.id⟩

instance : IsTrans Item idDescLe := ⟨fun _ _ _ h1 h2 => le_trans h2 h1⟩

instance : IsTotal Item sectionRankLe := ⟨fun _ _ => Nat.le_total _ _⟩

instance : IsTrans Item sectionRankLe := ⟨fun _ _ _ => Nat.le_trans⟩

instance : IsTotal Item catPriorityLe := ⟨fun _ _ => Nat.le_total _ _⟩

instance : IsTrans Item catPriorityLe := ⟨fun _ _ _ => Nat.le_trans⟩

/-- The release sort of parse_abs: three successive stable sorts, first
by identifier descending, then by section rank ascending, then by
category priority ascending.  Python's list.sort is stable; a stable
sort is modelled by insertion sort, whose output the stability
determines uniquely. -/
def releaseSort (l : List Item) : List Item :=
  List.insertionSort catPriorityLe
    (List.insertionSort sectionRankLe
      (List.insertionSort idDescLe l))

/-- The dominant three-key total preorder claimed for a release:
category priority ascending, then section rank ascending, then
identifier descending. -/
def lexKeyLe (x y : Item) : Prop :=
  x.cat_priority < y.cat_priority ∨
    (x.cat_priority = y.cat_priority ∧
      (x.section_rank < y.section_rank ∨
        (x.section_rank = y.section_rank ∧ y.id ≤ x.id)))

instance : DecidableRel lexKeyLe :=
  fun x y =>
    inferInstanceAs (Decidable (x.cat_priority < y.cat_priority ∨
      (x.cat_priority = y.cat_priority ∧
        (x.section_rank < y.section_rank ∨
          (x.section_rank = y.section_rank ∧ y.id ≤ x.id)))))

/-- One observable event of a run: a listing response being parsed, or a
detail (abs) response resolving the k-th outstanding request, carrying
the canonical href and the h1 text fragments of that page. -/
inductive Ev where
  | page (url : String) (blocks : List Block)
  | resolve (k : Nat) (canonical : Option String) (h1texts : List String)
deriving DecidableEq

/-- The spider's mutable state: the seen-identifier registry, the
dispatched-but-unresolved requests, the completion buffer, and the
emissions so far (kept both as the flat yielded sequence and grouped by
release, so that cross-release ordering is observable). -/
structure MState where
  seen : List String
  outstanding : List Stub
  buffer : List Item
  batches : List (List Item)
  output : List OutRecord
deriving DecidableEq

/-- The state at spider construction. -/
def initState : MState :=
  { seen := [], outstanding := [], buffer := [], batches := [], output := [] }

/-- One event step.  A page event runs parse (registry update plus
dispatch); a resolve event runs parse_abs for one outstanding request:
resolve the version, append the item to the buffer, and release --
sort, strip, emit, clear -- exactly when the buffer length has reached
the registry size. -/
def step (targets : List String) (s : MState) : Ev → MState
  | Ev.page url blocks =>
    match parseListing targets url blocks s.seen with
    | (seen', stubs) => { s with seen := seen', outstanding := s.outstanding ++ stubs }
  | Ev.resolve k canonical h1texts =>
    match s.outstanding[k]? with
    | none => s
    | some stub =>
      let outstanding' := s.outstanding.eraseIdx k
      let item := mkItem stub (resolveVersion canonical h1texts)
      let buf := s.buffer ++ [item]
      if s.seen.length ≤ buf.length then
        let batch := releaseSort buf
        { seen := s.seen, outstanding := outstanding', buffer := [],
          batches := s.batches ++ [batch],
          output := s.output ++ batch.map stripItem }
      else { s with outstanding := outstanding', buffer := buf }

/-- Run a sequence of events from a given state. -/
def runFrom (targets : List String) (s : MState) (events : List Ev) : MState :=
  events.foldl (step targets) s

/-- Run a whole crawl from the initial state. -/
def runMachine (targets : List String) (events : List Ev) : MState :=
  runFrom targets initState events

/-- Resolution events for n outstanding requests, head first, with pages
that carry neither a canonical revision nor a heading revision. -/
def resolveEvents (n : Nat) : List Ev := List.replicate n (Ev.resolve 0 none [])

/-- Run invariant: the flat yielded output is the concatenation of the
release batches in release order, and every batch is sorted by the
dominant three-key comparison. -/
def goodState (s : MState) : Prop :=
  s.output = (s.batches.map (fun b => b.map stripItem)).flatten ∧
  ∀ b ∈ s.batches, b.Pairwise lexKeyLe

/-- Registry and dispatch invariant of one scan segment: the registry
only grows by appending, the dispatched stubs carry pairwise distinct
identifiers, and every dispatched identifier is newly admitted (absent
from the registry before the segment, present after it). -/
def scanInv (seenIn seenOut : List String) (stubs : List Stub) : Prop :=
  (∃ tail, seenOut = seenIn ++ tail) ∧
  (stubs.map (fun st => st.id)).Nodup ∧
  ∀ st ∈ stubs, st.id ∈ seenOut ∧ st.id ∉ seenIn

/-- Demo entry: a math.QA submission. -/
def dtA : DtPart :=
  { titleAbstractHref := some "https://arxiv.org/abs/2401.00002", absLinkHref := none }

/-- Subjects of the demo math.QA entry. -/
def ddA : DdPart := { subjTexts := ["Quantum Algebra (math.QA)"] }

/-- Demo entry: a cs.CV submission (filtered out under math targets). -/
def dtB : DtPart :=
  { titleAbstractHref := some "https://arxiv.org/abs/2401.00001", absLinkHref := none }

/-- Subjects of the demo cs.CV entry. -/
def ddB : DdPart := { subjTexts := ["Computer Vision (cs.CV)"] }

/-- Demo entry: a math.RT submission. -/
def dtC : DtPart :=
  { titleAbstractHref := some "https://arxiv.org/abs/2401.00003", absLinkHref := none }

/-- Subjects of the demo math.RT entry. -/
def ddC : DdPart := { subjTexts := ["Representation Theory (math.RT)"] }

/-- Demo entry with no identifier-bearing link. -/
def dtMal : DtPart := { titleAbstractHref := some "https://arxiv.org/about", absLinkHref := none }

/-- Demo subjects whose text is whitespace only (strips to nothing). -/
def ddEmpty : DdPart := { subjTexts := ["  "] }

/-- Demo target set containing only math.QA. -/
def demoTargets : List String := ["math.QA"]

/-- Demo target set containing math.QA and math.RT. -/
def demoTargets2 : List String := ["math.QA", "math.RT"]

/-- Demo listing URL for math.QA. -/
def demoUrlQA : String := "https://arxiv.org/list/math.QA/new"

/-- Demo listing URL for math.RT. -/
def demoUrlRT : String := "https://arxiv.org/list/math.RT/new"

/-- Demo listing with one New-section entry (math.QA). -/
def demoBlocksB : List Block := [Block.h3 ["New submissions"], Block.dl [dtA] [ddA]]

/-- Demo listing with two New-section entries, one filtered under math
targets. -/
def demoBlocksA : List Block := [Block.h3 ["New submissions"], Block.dl [dtA, dtB] [ddA, ddB]]

/-- Demo math.RT listing that cross-lists the math.QA entry and adds a
fresh one. -/
def demoBlocksRT : List Block :=
  [Block.h3 ["New submissions"], Block.dl [dtA, dtC] [ddA, ddC]]

/-- The stub dispatched for the demo math.QA entry. -/
def stubA : Stub :=
  { id := "2401.00002", sec := "new", abs := "https://arxiv.org/abs/2401.00002",
    pdf := "https://arxiv.org/pdf/2401.00002", categories := ["math.QA"],
    cat_priority := 0, section_rank := 0 }

/-- The stub dispatched for the demo math.RT entry on the second page. -/
def stubC : Stub :=
  { id := "2401.00003", sec := "new", abs := "https://arxiv.org/abs/2401.00003",
    pdf := "https://arxiv.org/pdf/2401.00003", categories := ["math.RT"],
    cat_priority := 1, section_rank := 0 }

/-- The resolved item for the demo math.QA entry with the default tag. -/
def itemA : Item := mkItem stubA "v1"

/-- Demo run events: the two-entry page, then the only resolution. -/
def demoEventsA : List Ev := [Ev.page demoUrlQA demoBlocksA, Ev.resolve 0 none []]

/-- Demo run events: the one-entry page, then the only resolution. -/
def demoEventsB : List Ev := [Ev.page demoUrlQA demoBlocksB, Ev.resolve 0 none []]

/-- Demo state after the one-entry page, before any resolution. -/
def demoStateB : MState := runMachine demoTargets [Ev.page demoUrlQA demoBlocksB]

/-- Stability kernel: inserting a into a list that came after it
preserves a pairwise property P, provided P holds backwards across
every comparison failure (the inserted element only ever passes an
element it is not le-related to, which is exactly how a stable sort
keeps equal keys in arrival order). -/
theorem pairwise_orderedInsert_of {α : Type} (r : α → α → Prop) [DecidableRel r]
    (P : α → α → Prop) (hP : ∀ a b, ¬ r a b → P b a) (a : α) :
    ∀ l : List α, (∀ y ∈ l, P a y) → l.Pairwise P → (List.orderedInsert r a l).Pairwise P := by
  intro l
  induction l with
  | nil => intro _ _; simp
  | cons b t ih =>
    intro ha hl
    rcases List.pairwise_cons.mp hl with ⟨hb, ht⟩
    simp only [List.orderedInsert]
    by_cases hab : r a b
    · rw [if_pos hab]
      exact List.Pairwise.cons ha hl
    · rw [if_neg hab]
      refine List.pairwise_cons.mpr ⟨?_, ih (fun y hy => ha y (List.mem_cons_of_mem b hy)) ht⟩
      intro y hy
      rcases (List.mem_orderedInsert r).mp hy with rfl | h
      · exact hP _ b hab
      · exact hb y h

/-- Insertion sort preserves a pairwise property P that holds backwards
across every comparison failure. -/
theorem pairwise_insertionSort_of {α : Type} (r : α → α → Prop) [DecidableRel r]
    (P : α → α → Prop) (hP : ∀ a b, ¬ r a b → P b a) :
    ∀ l : List α, l.Pairwise P → (List.insertionSort r l).Pairwise P := by
  intro l
  induction l with
  | nil => intro _; simp
  | cons a t ih =>
    intro hl
    rcases List.pairwise_cons.mp hl with ⟨ha, ht⟩
    simp only [List.insertionSort]
    exact pairwise_orderedInsert_of r P hP a _
      (fun y hy => ha y ((List.mem_insertionSort r).mp hy)) (ih ht)

/-- The three successive stable sorts of a release leave the buffer
ordered by the dominant three-key comparison: category priority
ascending, then section rank ascending, then identifier descending. -/
theorem releaseSort_sorted (l : List Item) : (releaseSort l).Pairwise lexKeyLe := by
  unfold releaseSort
  have h1 : (List.insertionSort idDescLe l).Pairwise idDescLe :=
    List.sorted_insertionSort idDescLe l
  have h2s : (List.insertionSort sectionRankLe (List.insertionSort idDescLe l)).Pairwise
      sectionRankLe := List.sorted_insertionSort sectionRankLe _
  have h1' : (List.insertionSort idDescLe l).Pairwise
      (fun x y => x.section_rank = y.section_rank → idDescLe x y) := by
    refine h1.imp ?_
    intro x y h _
    exact h
  have h2p : (List.insertionSort sectionRankLe (List.insertionSort idDescLe l)).Pairwise
      (fun x y => x.section_rank = y.section_rank → idDescLe x y) := by
    refine pairwise_insertionSort_of sectionRankLe _ ?_ _ h1'
    intro a b hab heq
    exact absurd (le_of_eq heq.symm) hab
  have hq := h2s.and h2p
  have h3s : (List.insertionSort catPriorityLe
      (List.insertionSort sectionRankLe (List.insertionSort idDescLe l))).Pairwise
      catPriorityLe := List.sorted_insertionSort catPriorityLe _
  have h3p : (List.insertionSort catPriorityLe
      (List.insertionSort sectionRankLe (List.insertionSort idDescLe l))).Pairwise
      (fun x y => x.cat_priority = y.cat_priority →
        sectionRankLe x y ∧ (x.section_rank = y.section_rank → idDescLe x y)) := by
    have hq' : (List.insertionSort sectionRankLe (List.insertionSort idDescLe l)).Pairwise
        (fun x y => x.cat_priority = y.cat_priority →
          sectionRankLe x y ∧ (x.section_rank = y.section_rank → idDescLe x y)) := by
      refine hq.imp ?_
      intro x y h _
      exact h
    refine pairwise_insertionSort_of catPriorityLe _ ?_ _ hq'
    intro a b hab heq
    exact absurd (le_of_eq heq.symm) hab
  refine (h3s.and h3p).imp ?_
  rintro x y ⟨hc, himp⟩
  rcases lt_or_eq_of_le hc with hlt | heq
  · exact Or.inl hlt
  · rcases himp heq with ⟨hs, hid⟩
    rcases lt_or_eq_of_le hs with hlt2 | heq2
    · exact Or.inr ⟨heq, Or.inl hlt2⟩
    · exact Or.inr ⟨heq, Or.inr ⟨heq2, hid heq2⟩⟩

/-- A release emits exactly the buffered records, merely re-ordered. -/
theorem releaseSort_perm (l : List Item) : List.Perm (releaseSort l) l :=
  ((List.perm_insertionSort catPriorityLe _).trans
    (List.perm_insertionSort sectionRankLe _)).trans
    (List.perm_insertionSort idDescLe l)

theorem goodState_init : goodState initState := by
  constructor
  · rfl
  · intro b hb
    simp [initState] at hb

theorem goodState_step (targets : List String) (s : MState) (hs : goodState s) (e : Ev) :
    goodState (step targets s e) := by
  cases e with
  | page url blocks =>
    rcases h : parseListing targets url blocks s.seen with ⟨seen', stubs⟩
    simp only [step, h]
    exact ⟨hs.1, hs.2⟩
  | resolve k canonical h1texts =>
    cases hk : s.outstanding[k]? with
    | none => simpa only [step, hk] using hs
    | some stub =>
      simp only [step, hk]
      split
      · refine ⟨?_, ?_⟩
        · simp only [List.map_append, List.flatten_append, hs.1]
          simp
        · intro b hb
          rcases List.mem_append.mp hb with h | h
          · exact hs.2 b h
          · rcases List.mem_singleton.mp h with rfl
            exact releaseSort_sorted _
      · exact ⟨hs.1, hs.2⟩

theorem goodState_run (targets : List String) :
    ∀ (events : List Ev) (s : MState), goodState s → goodState (runFrom targets s events)
  | [], _, hs => hs
  | e :: rest, s, hs =>
    goodState_run targets rest (step targets s e) (goodState_step targets s hs e)

theorem scanInv_refl (seen : List String) : scanInv seen seen [] := by
  refine ⟨⟨[], by simp⟩, by simp, by simp⟩

theorem scanInv_append {s0 s1 s2 : List String} {l1 l2 : List Stub}
    (h1 : scanInv s0 s1 l1) (h2 : scanInv s1 s2 l2) : scanInv s0 s2 (l1 ++ l2) := by
  obtain ⟨⟨t1, rfl⟩, h1n, h1m⟩ := h1
  obtain ⟨⟨t2, ht2⟩, h2n, h2m⟩ := h2
  refine ⟨⟨t1 ++ t2, by rw [ht2, List.append_assoc]⟩, ?_, ?_⟩
  · rw [List.map_append]
    refine h1n.append h2n ?_
    intro x hx1 hx2
    rcases List.mem_map.mp hx1 with ⟨st1, hst1, rfl⟩
    rcases List.mem_map.mp hx2 with ⟨st2, hst2, heq⟩
    exact (h2m st2 hst2).2 (heq ▸ (h1m st1 hst1).1)
  · intro st hst
    rcases List.mem_append.mp hst with h | h
    · obtain ⟨hin, hout⟩ := h1m st h
      exact ⟨ht2 ▸ List.mem_append_left _ hin, hout⟩
    · obtain ⟨hin, hout⟩ := h2m st h
      exact ⟨hin, fun hc => hout (List.mem_append_left _ hc)⟩

/-- Case analysis of one entry: either the registry and dispatch are
untouched (malformed link, malformed identifier, or duplicate), or a
fresh identifier is appended to the registry and the optional stub --
present exactly when the entry passes the category filter -- carries
that identifier together with the current section and priority keys. -/
theorem parseEntry_eq (targets : List String) (catPrio : Nat) (secText : String) (secRank : Nat)
    (seen : List String) (dt : DtPart) (dd : DdPart) :
    parseEntry targets catPrio secText secRank seen dt dd = (seen, none) ∨
    ∃ arxivId st?, arxivId ∉ seen ∧
      parseEntry targets catPrio secText secRank seen dt dd = (seen ++ [arxivId], st?) ∧
      ∀ st, st? = some st → st.id = arxivId ∧ st.sec = secText ∧
        st.section_rank = secRank ∧ st.cat_priority = catPrio := by
  unfold parseEntry
  split
  · exact Or.inl rfl
  · split
    · exact Or.inl rfl
    · next arxivId heq =>
      split
      · exact Or.inl rfl
      · next hseen =>
        dsimp only
        split
        · refine Or.inr ⟨arxivId, _, hseen, rfl, ?_⟩
          intro st hst
          cases hst
          exact ⟨rfl, rfl, rfl, rfl⟩
        · refine Or.inr ⟨arxivId, _, hseen, rfl, ?_⟩
          intro st hst
          cases hst

/-- Registry/dispatch invariant for one entry. -/
theorem parseEntry_scanInv (targets : List String) (catPrio : Nat) (secText : String)
    (secRank : Nat) (seen : List String) (dt : DtPart) (dd : DdPart) :
    scanInv seen (parseEntry targets catPrio secText secRank seen dt dd).1
      (parseEntry targets catPrio secText secRank seen dt dd).2.toList := by
  rcases parseEntry_eq targets catPrio secText secRank seen dt dd with
    h | ⟨arxivId, st?, hfresh, h, hfields⟩
  · rw [h]
    exact scanInv_refl seen
  · rw [h]
    refine ⟨⟨[arxivId], rfl⟩, ?_, ?_⟩
    · cases st? with
      | none => simp
      | some st => simp
    · intro st hst
      cases st? with
      | none => simp at hst
      | some st' =>
        have hst' : st = st' := by simpa using hst
        subst hst'
        obtain ⟨hid, _, _, _⟩ := hfields st rfl
        rw [hid]
        exact ⟨List.mem_append_right _ (List.mem_singleton_self _), hfresh⟩

/-- Fields of a dispatched stub: the identifier key aside, a stub always
carries the section text, section rank and category priority in effect
when its entry was scanned. -/
theorem parseEntry_stub_fields (targets : List String) (catPrio : Nat) (secText : String)
    (secRank : Nat) (seen : List String) (dt : DtPart) (dd : DdPart) (st : Stub)
    (h : (parseEntry targets catPrio secText secRank seen dt dd).2 = some st) :
    st.sec = secText ∧ st.section_rank = secRank ∧ st.cat_priority = catPrio := by
  rcases parseEntry_eq targets catPrio secText secRank seen dt dd with
    h0 | ⟨aid, st?, _, h0, hf⟩
  · rw [h0] at h
    exact absurd h (by simp)
  · rw [h0] at h
    obtain ⟨_, h1, h2, h3⟩ := hf st h
    exact ⟨h1, h2, h3⟩

/-- Registry/dispatch invariant for the entries of one list block. -/
theorem processEntries_scanInv (targets : List String) (catPrio : Nat) (secText : String)
    (secRank : Nat) :
    ∀ (entries : List (DtPart × DdPart)) (seen : List String),
      scanInv seen (processEntries targets catPrio secText secRank entries seen).1
        (processEntries targets catPrio secText secRank entries seen).2 := by
  intro entries
  induction entries with
  | nil => intro seen; exact scanInv_refl seen
  | cons e rest ih =>
    intro seen
    rcases e with ⟨dt, dd⟩
    have h1 := parseEntry_scanInv targets catPrio secText secRank seen dt dd
    rcases hpe : parseEntry targets catPrio secText secRank seen dt dd with ⟨seen', st?⟩
    rw [hpe] at h1
    have h2 := ih seen'
    rcases hpr : processEntries targets catPrio secText secRank rest seen' with ⟨seen'', stubs⟩
    rw [hpr] at h2
    simp only [processEntries, hpe, hpr]
    exact scanInv_append h1 h2

/-- Every stub of one list block carries the section state and priority
passed to the block scan. -/
theorem processEntries_fields (targets : List String) (catPrio : Nat) (secText : String)
    (secRank : Nat) :
    ∀ (entries : List (DtPart × DdPart)) (seen : List String) (st : Stub),
      st ∈ (processEntries targets catPrio secText secRank entries seen).2 →
      st.sec = secText ∧ st.section_rank = secRank ∧ st.cat_priority = catPrio := by
  intro entries
  induction entries with
  | nil =>
    intro seen st hst
    simp [processEntries] at hst
  | cons e rest ih =>
    intro seen st hst
    rcases e with ⟨dt, dd⟩
    rcases hpe : parseEntry targets catPrio secText secRank seen dt dd with ⟨seen', st?⟩
    rcases hpr : processEntries targets catPrio secText secRank rest seen' with ⟨seen'', stubs⟩
    simp only [processEntries, hpe, hpr] at hst
    rcases List.mem_append.mp hst with h | h
    · cases st? with
      | none => simp at h
      | some st' =>
        have hst' : st = st' := by simpa using h
        subst hst'
        refine parseEntry_stub_fields targets catPrio secText secRank seen dt dd st ?_
        rw [hpe]
    · exact ih seen' st (by rw [hpr]; exact h)

/-- Registry/dispatch invariant for a whole block scan. -/
theorem processBlocks_scanInv (targets : List String) (catPrio : Nat) :
    ∀ (blocks : List Block) (secText : String) (secRank : Nat) (seen : List String),
      scanInv seen (processBlocks targets catPrio blocks secText secRank seen).1
        (processBlocks targets catPrio blocks secText secRank seen).2 := by
  intro blocks
  induction blocks with
  | nil => intro secText secRank seen; exact scanInv_refl seen
  | cons b rest ih =>
    intro secText secRank seen
    cases b with
    | h3 texts =>
      rcases hcl : classifySection (headingOf texts) with ⟨t, r⟩
      simp only [processBlocks, hcl]
      exact ih t r seen
    | dl dts dds =>
      have h1 := processEntries_scanInv targets catPrio secText secRank (dts.zip dds) seen
      rcases hpe : processEntries targets catPrio secText secRank (dts.zip dds) seen with
        ⟨seen', stubs⟩
      rw [hpe] at h1
      have h2 := ih secText secRank seen'
      rcases hpb : processBlocks targets catPrio rest secText secRank seen' with ⟨seen'', stubs'⟩
      rw [hpb] at h2
      simp only [processBlocks, hpe, hpb]
      exact scanInv_append h1 h2

/-- Every stub of a block scan carries the category priority passed in
(constant for the whole listing document). -/
theorem processBlocks_catPrio (targets : List String) (catPrio : Nat) :
    ∀ (blocks : List Block) (secText : String) (secRank : Nat) (seen : List String) (st : Stub),
      st ∈ (processBlocks targets catPrio blocks secText secRank seen).2 →
      st.cat_priority = catPrio := by
  intro blocks
  induction blocks with
  | nil =>
    intro secText secRank seen st hst
    simp [processBlocks] at hst
  | cons b rest ih =>
    intro secText secRank seen st hst
    cases b with
    | h3 texts =>
      rcases hcl : classifySection (headingOf texts) with ⟨t, r⟩
      simp only [processBlocks, hcl] at hst
      exact ih t r seen st hst
    | dl dts dds =>
      rcases hpe : processEntries targets catPrio secText secRank (dts.zip dds) seen with
        ⟨seen', stubs⟩
      rcases hpb : processBlocks targets catPrio rest secText secRank seen' with ⟨seen'', stubs'⟩
      simp only [processBlocks, hpe, hpb] at hst
      rcases List.mem_append.mp hst with h | h
      · exact (processEntries_fields targets catPrio secText secRank (dts.zip dds) seen st
          (by rw [hpe]; exact h)).2.2
      · exact ih secText secRank seen' st (by rw [hpb]; exact h)

/-- Registry/dispatch invariant for one listing page. -/
theorem parseListing_scanInv (targets : List String) (url : String) (blocks : List Block)
    (seen : List String) :
    scanInv seen (parseListing targets url blocks seen).1
      (parseListing targets url blocks seen).2 :=
  processBlocks_scanInv targets (catPriority (extractSourceCat url)) blocks "other" 3 seen

/-- Registry/dispatch invariant for a sequence of listing pages. -/
theorem runListings_scanInv (targets : List String) :
    ∀ (pages : List (String × List Block)) (seen : List String),
      scanInv seen (runListings targets pages seen).1 (runListings targets pages seen).2 := by
  intro pages
  induction pages with
  | nil => intro seen; exact scanInv_refl seen
  | cons p rest ih =>
    intro seen
    rcases p with ⟨url, blocks⟩
    have h1 := parseListing_scanInv targets url blocks seen
    rcases hpl : parseListing targets url blocks seen with ⟨seen', stubs⟩
    rw [hpl] at h1
    have h2 := ih seen'
    rcases hpr : runListings targets rest seen' with ⟨seen'', stubs'⟩
    rw [hpr] at h2
    simp only [runListings, hpl, hpr]
    exact scanInv_append h1 h2

/-- Decomposition of a block scan: scanning a concatenation scans the
first part, then scans the second part starting from the section state
the first part folded to and from the registry it produced, and the
dispatched stubs are concatenated in that order. -/
theorem processBlocks_append (targets : List String) (catPrio : Nat) :
    ∀ (blocks1 blocks2 : List Block) (secText : String) (secRank : Nat) (seen : List String),
      processBlocks targets catPrio (blocks1 ++ blocks2) secText secRank seen
        = ((processBlocks targets catPrio blocks2 (sectionFold (secText, secRank) blocks1).1
              (sectionFold (secText, secRank) blocks1).2
              (processBlocks targets catPrio blocks1 secText secRank seen).1).1,
           (processBlocks targets catPrio blocks1 secText secRank seen).2
             ++ (processBlocks targets catPrio blocks2 (sectionFold (secText, secRank) blocks1).1
                  (sectionFold (secText, secRank) blocks1).2
                  (processBlocks targets catPrio blocks1 secText secRank seen).1).2) := by
  intro blocks1
  induction blocks1 with
  | nil =>
    intro blocks2 secText secRank seen
    simp [processBlocks, sectionFold]
  | cons b rest ih =>
    intro blocks2 secText secRank seen
    cases b with
    | h3 texts =>
      rcases hcl : classifySection (headingOf texts) with ⟨t, r⟩
      simp only [List.cons_append, processBlocks, hcl, sectionFold]
      exact ih blocks2 t r seen
    | dl dts dds =>
      rcases hpe : processEntries targets catPrio secText secRank (dts.zip dds) seen with
        ⟨seen', stubs⟩
      have hL : processBlocks targets catPrio ((Block.dl dts dds :: rest) ++ blocks2)
          secText secRank seen
          = (match processBlocks targets catPrio (rest ++ blocks2) secText secRank seen' with
             | (seen'', stubs') => (seen'', stubs ++ stubs')) := by
        show processBlocks targets catPrio (Block.dl dts dds :: (rest ++ blocks2))
          secText secRank seen = _
        simp only [processBlocks, hpe]
      rw [hL, ih blocks2 secText secRank seen']
      simp only [processBlocks, hpe, sectionFold]
      rcases hpb : processBlocks targets catPrio rest secText secRank seen' with ⟨s2, st2⟩
      simp [List.append_assoc]

/-- Release branch of one resolution step: when the enlarged buffer has
reached the registry size the batch is sorted, stripped, emitted and
the buffer cleared; otherwise the item is only buffered. -/
theorem step_resolve_eq (targets : List String) (s : MState) (k : Nat)
    (canonical : Option String) (h1texts : List String) (stub : Stub)
    (hk : s.outstanding[k]? = some stub) :
    (s.seen.length ≤ s.buffer.length + 1 →
      step targets s (Ev.resolve k canonical h1texts)
        = { seen := s.seen, outstanding := s.outstanding.eraseIdx k, buffer := [],
            batches := s.batches
              ++ [releaseSort (s.buffer ++ [mkItem stub (resolveVersion canonical h1texts)])],
            output := s.output
              ++ (releaseSort
                  (s.buffer ++ [mkItem stub (resolveVersion canonical h1texts)])).map
                    stripItem })
    ∧ (¬ s.seen.length ≤ s.buffer.length + 1 →
      step targets s (Ev.resolve k canonical h1texts)
        = { s with outstanding := s.outstanding.eraseIdx k,
                   buffer := s.buffer ++ [mkItem stub (resolveVersion canonical h1texts)] }) := by
  constructor
  · intro h
    have h' : s.seen.length ≤ (s.buffer ++ [mkItem stub (resolveVersion canonical h1texts)]).length := by
      simpa using h
    simp only [step, hk]
    rw [if_pos h']
  · intro h
    have h' : ¬ s.seen.length ≤ (s.buffer ++ [mkItem stub (resolveVersion canonical h1texts)]).length := by
      simpa using h
    simp only [step, hk]
    rw [if_neg h']

/-- Draining the outstanding requests: when every admitted identifier is
accounted for by the buffer and the outstanding requests, resolving all
outstanding requests fires the final release by the threshold check
alone, emptying the buffer and emitting everything. -/
theorem runFrom_drain (targets : List String) :
    ∀ (out : List Stub) (s : MState), s.outstanding = out → out ≠ [] →
      s.seen.length = s.buffer.length + out.length →
      (runFrom targets s (resolveEvents out.length)).buffer = []
        ∧ (runFrom targets s (resolveEvents out.length)).outstanding = []
        ∧ (runFrom targets s (resolveEvents out.length)).output.length
            = s.output.length + s.seen.length
        ∧ (runFrom targets s (resolveEvents out.length)).seen = s.seen := by
  intro out
  induction out with
  | nil =>
    intro s _ h2 _
    exact absurd rfl h2
  | cons stub rest ih =>
    intro s hout hne hlen
    have hk : s.outstanding[0]? = some stub := by rw [hout]; simp
    have hrep : resolveEvents (rest.length + 1)
        = Ev.resolve 0 none [] :: resolveEvents rest.length := by
      simp [resolveEvents, List.replicate_succ]
    cases rest with
    | nil =>
      have hrel : s.seen.length ≤ s.buffer.length + 1 := by
        simp only [List.length_cons, List.length_nil] at hlen
        omega
      have hstep := (step_resolve_eq targets s 0 none [] stub hk).1 hrel
      have hlen1 : s.seen.length = s.buffer.length + 1 := by simpa using hlen
      have hone : runFrom targets s (resolveEvents ([stub] : List Stub).length)
          = step targets s (Ev.resolve 0 none []) := by
        simp [resolveEvents, runFrom]
      rw [hone, hstep]
      refine ⟨rfl, ?_, ?_, rfl⟩
      · show s.outstanding.eraseIdx 0 = []
        rw [hout]
        rfl
      · show (s.output
            ++ (releaseSort (s.buffer ++ [mkItem stub (resolveVersion none [])])).map
              stripItem).length = s.output.length + s.seen.length
        rw [List.length_append, List.length_map, (releaseSort_perm _).length_eq,
          List.length_append]
        simp [hlen1]
    | cons b t =>
      have hnorel : ¬ s.seen.length ≤ s.buffer.length + 1 := by
        simp only [List.length_cons] at hlen
        omega
      have hstep := (step_resolve_eq targets s 0 none [] stub hk).2 hnorel
      have hout1 : s.outstanding.eraseIdx 0 = b :: t := by
        rw [hout]
        rfl
      have hnext := ih { s with
          outstanding := s.outstanding.eraseIdx 0,
          buffer := s.buffer ++ [mkItem stub (resolveVersion none [])] }
        hout1 (List.cons_ne_nil b t)
        (by
          show s.seen.length
            = (s.buffer ++ [mkItem stub (resolveVersion none [])]).length + (b :: t).length
          simp only [List.length_cons] at hlen
          simp only [List.length_append, List.length_cons, List.length_nil]
          omega)
      obtain ⟨hb, ho, hol, hs⟩ := hnext
      have hsplit : runFrom targets s (resolveEvents (stub :: b :: t).length)
          = runFrom targets
              { s with
                outstanding := s.outstanding.eraseIdx 0,
                buffer := s.buffer ++ [mkItem stub (resolveVersion none [])] }
              (resolveEvents (b :: t).length) := by
        show runFrom targets s (resolveEvents ((b :: t).length + 1)) = _
        rw [hrep]
        show runFrom targets (step targets s (Ev.resolve 0 none []))
            (resolveEvents (b :: t).length) = _
        rw [hstep]
      rw [hsplit]
      exact ⟨hb, ho, hol, hs⟩

/-- Normal form of parseEntry on a well-formed fresh entry: the
identifier is appended to the registry unconditionally, then the
category filter decides between a stub and a silent skip. -/
theorem parseEntry_unfold (targets : List String) (catPrio : Nat) (secText : String)
    (secRank : Nat) (seen : List String) (dt : DtPart) (dd : DdPart) (url arxivId : String)
    (habs : absHrefOf dt = some url) (hid : findAbsId url = some arxivId)
    (hfresh : arxivId ∉ seen) :
    parseEntry targets catPrio secText secRank seen dt dd
      = if (dedupFirst (findCodes (subjectsTextOf dd))).any (fun c => targets.contains c)
            || subjectsTextOf dd == "" then
          (seen ++ [arxivId],
            some { id := arxivId, sec := secText, abs := url, pdf := absToPdf url,
                   categories := if subjectsTextOf dd == "" then []
                     else dedupFirst (findCodes (subjectsTextOf dd)),
                   cat_priority := catPrio, section_rank := secRank })
        else (seen ++ [arxivId], none) := by
  unfold parseEntry
  simp only [habs, hid]
  rw [if_neg hfresh]

/-- C9: the category priority function is pure and total over arbitrary
strings with no error path; "math.QA" maps to its configured rank 0,
"math.RT" to 1, with QA strictly preceding RT; every other string maps
to the single shared default rank 99, strictly greater than every
override rank. -/
theorem claim_c9_priority (c : String) :
    catPriority "math.QA" = 0
    ∧ catPriority "math.RT" = 1
    ∧ catPriority "math.QA" < catPriority "math.RT"
    ∧ (c ≠ "math.QA" → c ≠ "math.RT" →
        catPriority c = 99
        ∧ catPriority "math.QA" < catPriority c
        ∧ catPriority "math.RT" < catPriority c) := by
  refine ⟨by decide, by decide, by decide, ?_⟩
  intro h1 h2
  have hc : catPriority c = 99 := by
    unfold catPriority
    rw [if_neg h1, if_neg h2]
  refine ⟨hc, ?_, ?_⟩ <;> rw [hc] <;> decide

/-- Witness for C9 at the unknown code "cs.CV". -/
theorem claim_c9_priority_witness :
    catPriority "cs.CV" = 99
    ∧ catPriority "math.QA" < catPriority "cs.CV"
    ∧ catPriority "math.RT" < catPriority "cs.CV" :=
  (claim_c9_priority "cs.CV").2.2.2 (by decide) (by decide)

/-- C7 counterexample: the constructor does not deduplicate the category
list: the input "math.QA,math.QA" yields the category list with two
copies and two identical listing URLs to visit, where the claim promises
a single listing visit for a duplicated code. -/
theorem claim_c7_counterexample :
    initCats "math.QA,math.QA" = ["math.QA", "math.QA"]
    ∧ startUrls (initCats "math.QA,math.QA")
        = ["https://arxiv.org/list/math.QA/new", "https://arxiv.org/list/math.QA/new"]
    ∧ ¬ (startUrls (initCats "math.QA,math.QA")).Nodup := by
  exact ⟨by decide, by decide, by decide⟩

/-- C7 (amended): the category list is trimmed, cleaned of empty pieces
and stably sorted ascending by the priority function before any fetch,
and the listing URLs are visited in exactly that list order; but the
list is not deduplicated -- it is a permutation of the whole trimmed
input, duplicates included, so a duplicated input code yields a
duplicated listing visit. -/
theorem claim_c7_sorted_not_dedup (s : String) :
    (initCats s).Pairwise catLe
    ∧ List.Perm (initCats s) (((splitComma s).map pyStrip).filter (fun c => c ≠ ""))
    ∧ startUrls (initCats s)
        = (initCats s).map (fun c => "https://arxiv.org/list/" ++ c ++ "/new") :=
  ⟨List.sorted_insertionSort catLe _, List.perm_insertionSort catLe _, rfl⟩

/-- C4 counterexample: when the canonical self-reference link ends in
the revision tag v1, the heading is still scanned and its token wins,
although the claim promises that a matching canonical tag is emitted
regardless of the heading's content. -/
theorem claim_c4_counterexample :
    canonVersion "https://arxiv.org/abs/2401.00001v1" = some "v1"
    ∧ headingVersion (joinSep " " ["Paper title v2"]) = some "v2"
    ∧ resolveVersion (some "https://arxiv.org/abs/2401.00001v1") ["Paper title v2"] = "v2" := by
  exact ⟨by decide, by decide, by decide⟩

/-- C4 (amended): a canonical revision tag different from v1 is emitted
regardless of the heading; when the canonical source yields no match or
yields exactly the tag v1, the joined heading text is scanned for a
standalone revision token, and the result defaults to v1 when that scan
finds nothing. -/
theorem claim_c4_resolution (canonical : Option String) (h1texts : List String) :
    (∀ v, canonical.bind canonVersion = some v → v ≠ "v1" →
      resolveVersion canonical h1texts = v)
    ∧ (canonical.bind canonVersion = none ∨ canonical.bind canonVersion = some "v1" →
        resolveVersion canonical h1texts
          = (headingVersion (joinSep " " h1texts)).getD "v1") := by
  constructor
  · intro v hv hne
    unfold resolveVersion
    cases canonical with
    | none => simp at hv
    | some c =>
      have hc : canonVersion c = some v := by simpa using hv
      simp only [hc]
      rw [if_neg hne]
  · intro hcase
    unfold resolveVersion
    cases canonical with
    | none =>
      rw [if_pos rfl]
      cases hh : headingVersion (joinSep " " h1texts) <;> simp [hh]
    | some c =>
      rcases hcase with h | h
      · have hc : canonVersion c = none := by simpa using h
        simp only [hc]
        rw [if_pos trivial]
        cases hh : headingVersion (joinSep " " h1texts) <;> simp [hh]
      · have hc : canonVersion c = some "v1" := by simpa using h
        simp only [hc]
        rw [if_pos trivial]
        cases hh : headingVersion (joinSep " " h1texts) <;> simp [hh]

/-- Witness for the amended C4 at concrete detail pages. -/
theorem claim_c4_resolution_witness :
    resolveVersion (some "https://arxiv.org/abs/2401.00001v3") ["Ignored v2"] = "v3"
    ∧ resolveVersion none ["Paper v2"]
        = (headingVersion (joinSep " " ["Paper v2"])).getD "v1" :=
  ⟨(claim_c4_resolution (some "https://arxiv.org/abs/2401.00001v3") ["Ignored v2"]).1
      "v3" (by decide) (by decide),
   (claim_c4_resolution none ["Paper v2"]).2 (Or.inl (by decide))⟩

/-- C10: an entry with no identifier-bearing link, or whose link does
not contain the expected identifier shape, is skipped silently -- the
registry is untouched, no stub is produced, and the scan of the
remaining entries proceeds exactly as if the entry were absent; the scan
is a total function, so no error is ever surfaced. -/
theorem claim_c10_malformed (targets : List String) (catPrio : Nat) (secText : String)
    (secRank : Nat) (seen : List String) (dt : DtPart) (dd : DdPart)
    (hmal : ∀ url, absHrefOf dt = some url → findAbsId url = none) :
    parseEntry targets catPrio secText secRank seen dt dd = (seen, none)
    ∧ ∀ rest, processEntries targets catPrio secText secRank ((dt, dd) :: rest) seen
        = processEntries targets catPrio secText secRank rest seen := by
  have h1 : parseEntry targets catPrio secText secRank seen dt dd = (seen, none) := by
    cases habs : absHrefOf dt with
    | none =>
      unfold parseEntry
      simp only [habs]
    | some url =>
      unfold parseEntry
      simp only [habs, hmal url habs]
  refine ⟨h1, ?_⟩
  intro rest
  rcases hpr : processEntries targets catPrio secText secRank rest seen with ⟨seen', stubs⟩
  simp only [processEntries, h1, hpr]
  simp

/-- The category filter condition of the source, in propositional form. -/
theorem filterCond_iff (targets : List String) (dd : DdPart) :
    (((dedupFirst (findCodes (subjectsTextOf dd))).any (fun c => targets.contains c)
        || subjectsTextOf dd == "") = true)
      ↔ ((∃ c ∈ dedupFirst (findCodes (subjectsTextOf dd)), c ∈ targets)
          ∨ subjectsTextOf dd = "") := by
  simp [List.any_eq_true]

/-- C6: for a fresh entry with an extractable identifier, a stub is
dispatched if and only if the declared codes intersect the target set or
no subject text was extracted at all; with no subject text the stub is
included with an empty declared-categories list (fail-open); in every
other non-intersecting case the entry is skipped (the source merely logs
at debug level, which has no observable effect beyond the skip). -/
theorem claim_c6_filter (targets : List String) (catPrio : Nat) (secText : String)
    (secRank : Nat) (seen : List String) (dt : DtPart) (dd : DdPart) (url arxivId : String)
    (habs : absHrefOf dt = some url) (hid : findAbsId url = some arxivId)
    (hfresh : arxivId ∉ seen) :
    ((parseEntry targets catPrio secText secRank seen dt dd).2.isSome = true
      ↔ ((∃ c ∈ dedupFirst (findCodes (subjectsTextOf dd)), c ∈ targets)
          ∨ subjectsTextOf dd = ""))
    ∧ (subjectsTextOf dd = "" →
        parseEntry targets catPrio secText secRank seen dt dd
          = (seen ++ [arxivId],
             some { id := arxivId, sec := secText, abs := url, pdf := absToPdf url,
                    categories := [], cat_priority := catPrio, section_rank := secRank }))
    ∧ (¬ ((∃ c ∈ dedupFirst (findCodes (subjectsTextOf dd)), c ∈ targets)
          ∨ subjectsTextOf dd = "") →
        parseEntry targets catPrio secText secRank seen dt dd = (seen ++ [arxivId], none)) := by
  have hU := parseEntry_unfold targets catPrio secText secRank seen dt dd url arxivId
    habs hid hfresh
  refine ⟨?_, ?_, ?_⟩
  · rw [hU]
    by_cases hcond : ((dedupFirst (findCodes (subjectsTextOf dd))).any
        (fun c => targets.contains c) || subjectsTextOf dd == "") = true
    · rw [if_pos hcond]
      exact iff_of_true (by simp) ((filterCond_iff targets dd).mp hcond)
    · rw [if_neg hcond]
      exact iff_of_false (by simp) (fun h => hcond ((filterCond_iff targets dd).mpr h))
  · intro hempty
    rw [hU]
    rw [if_pos ((filterCond_iff targets dd).mpr (Or.inr hempty))]
    simp [hempty]
  · intro hnot
    rw [hU]
    rw [if_neg (fun hc => hnot ((filterCond_iff targets dd).mp hc))]

/-- C3: the identifier of a fresh, well-formed entry is admitted to the
registry before the category filter runs; a filtered-out entry (subject
text present, no code intersecting the targets) still grows the registry
by its identifier while dispatching no stub -- so the admitted count can
strictly exceed the dispatched count -- and any later entry bearing the
same identifier, under any category, any section and any target set, is
suppressed by deduplication. -/
theorem claim_c3_admit_before_filter (targets : List String) (catPrio : Nat) (secText : String)
    (secRank : Nat) (seen : List String) (dt : DtPart) (dd : DdPart) (url arxivId : String)
    (habs : absHrefOf dt = some url) (hid : findAbsId url = some arxivId)
    (hfresh : arxivId ∉ seen) (hsubj : subjectsTextOf dd ≠ "")
    (hmiss : ∀ c ∈ dedupFirst (findCodes (subjectsTextOf dd)), c ∉ targets) :
    parseEntry targets catPrio secText secRank seen dt dd = (seen ++ [arxivId], none)
    ∧ (∀ (targets2 : List String) (catPrio2 : Nat) (secText2 : String) (secRank2 : Nat)
        (dt2 : DtPart) (dd2 : DdPart) (url2 : String),
        absHrefOf dt2 = some url2 → findAbsId url2 = some arxivId →
        parseEntry targets2 catPrio2 secText2 secRank2 (seen ++ [arxivId]) dt2 dd2
          = (seen ++ [arxivId], none)) := by
  constructor
  · rw [parseEntry_unfold targets catPrio secText secRank seen dt dd url arxivId
      habs hid hfresh]
    rw [if_neg ?_]
    intro hc
    rcases (filterCond_iff targets dd).mp hc with ⟨c, hc1, hc2⟩ | he
    · exact hmiss c hc1 hc2
    · exact hsubj he
  · intro targets2 catPrio2 secText2 secRank2 dt2 dd2 url2 habs2 hid2
    unfold parseEntry
    simp only [habs2, hid2]
    rw [if_pos (List.mem_append_right _ (List.mem_singleton_self _))]

/-- C8: the block scan holds one section state, initially other with
rank 3 (as parseListing passes it); headings set the state by
case-insensitive phrase matching -- new submissions (singular or plural)
to new with rank 0, cross-lists or cross submissions to cross with
rank 1, replacements or replacement submissions to repl with rank 2 --
any unmatched heading resets it to other with rank 3, and every stub of
a list block carries the section text and rank in effect when that block
was scanned (blocks after a prefix see exactly the state the prefix
folded to). -/
theorem claim_c8_section_state (targets : List String) (catPrio : Nat) :
    classifySection "New submissions" = ("new", 0)
    ∧ classifySection "New submission" = ("new", 0)
    ∧ classifySection "Cross-lists" = ("cross", 1)
    ∧ classifySection "Cross-list" = ("cross", 1)
    ∧ classifySection "Cross submissions" = ("cross", 1)
    ∧ classifySection "Replacements" = ("repl", 2)
    ∧ classifySection "Replacement submissions" = ("repl", 2)
    ∧ classifySection "REPLACEMENT" = ("repl", 2)
    ∧ (∀ h, matchesNewHeading (lowerStr h) = false →
        matchesCrossHeading (lowerStr h) = false →
        matchesReplHeading (lowerStr h) = false →
        classifySection h = ("other", 3))
    ∧ (∀ (url : String) (blocks : List Block) (seen : List String),
        parseListing targets url blocks seen
          = processBlocks targets (catPriority (extractSourceCat url)) blocks "other" 3 seen)
    ∧ (∀ (secText : String) (secRank : Nat) (entries : List (DtPart × DdPart))
        (seen : List String),
        ∀ st ∈ (processEntries targets catPrio secText secRank entries seen).2,
          st.sec = secText ∧ st.section_rank = secRank)
    ∧ (∀ (blocks1 blocks2 : List Block) (secText : String) (secRank : Nat)
        (seen : List String),
        (processBlocks targets catPrio (blocks1 ++ blocks2) secText secRank seen).2
          = (processBlocks targets catPrio blocks1 secText secRank seen).2
            ++ (processBlocks targets catPrio blocks2
                 (sectionFold (secText, secRank) blocks1).1
                 (sectionFold (secText, secRank) blocks1).2
                 (processBlocks targets catPrio blocks1 secText secRank seen).1).2) := by
  refine ⟨by decide, by decide, by decide, by decide, by decide, by decide, by decide, by decide,
    ?_, ?_, ?_, ?_⟩
  · intro h h1 h2 h3
    simp [classifySection, h1, h2, h3]
  · intro url blocks seen
    rfl
  · intro secText secRank entries seen st hst
    have hf := processEntries_fields targets catPrio secText secRank entries seen st hst
    exact ⟨hf.1, hf.2.1⟩
  · intro blocks1 blocks2 secText secRank seen
    rw [processBlocks_append targets catPrio blocks1 blocks2 secText secRank seen]

/-- C5: across a whole run the registry admits each identifier at most
once: the dispatched stubs of any sequence of listing pages carry
pairwise distinct identifiers; a two-page run dispatches the pages'
stubs in visit order, every identifier dispatched on the first page is
in the registry the second page starts from, no stub of the second page
carries an identifier the first page admitted (so a cross-listed entry
is dispatched exactly once, attributed to the earlier-visited page), and
every stub of a page carries that page's category priority. -/
theorem claim_c5_dedup (targets : List String) (pages : List (String × List Block))
    (u1 u2 : String) (b1 b2 : List Block) :
    ((runListings targets pages []).2.map (fun st => st.id)).Nodup
    ∧ (runListings targets [(u1, b1), (u2, b2)] []).2
        = (parseListing targets u1 b1 []).2
          ++ (parseListing targets u2 b2 (parseListing targets u1 b1 []).1).2
    ∧ (∀ st ∈ (parseListing targets u2 b2 (parseListing targets u1 b1 []).1).2,
        st.id ∉ (parseListing targets u1 b1 []).1)
    ∧ (∀ st ∈ (parseListing targets u1 b1 []).2, st.id ∈ (parseListing targets u1 b1 []).1)
    ∧ (∀ st ∈ (parseListing targets u1 b1 []).2,
        st.cat_priority = catPriority (extractSourceCat u1)) := by
  refine ⟨(runListings_scanInv targets pages []).2.1, ?_, ?_, ?_, ?_⟩
  · rcases h1 : parseListing targets u1 b1 [] with ⟨s1, st1⟩
    rcases h2 : parseListing targets u2 b2 s1 with ⟨s2, st2⟩
    simp [runListings, h1, h2]
  · intro st hst
    exact ((parseListing_scanInv targets u2 b2 (parseListing targets u1 b1 []).1).2.2 st hst).2
  · intro st hst
    exact ((parseListing_scanInv targets u1 b1 []).2.2 st hst).1
  · intro st hst
    exact processBlocks_catPrio targets (catPriority (extractSourceCat u1)) b1 "other" 3 [] st hst

/-- C1: in any run, the flat emitted output is exactly the release
batches concatenated in release order (records are never re-ordered
across releases), every release batch is ordered by the dominant
three-key comparison -- category priority ascending, then section rank
ascending, then identifier descending -- and the release sort is
literally the three successive stable sorts of the source, applied
identifier-descending first, then section rank, then category priority,
emitting a permutation of the buffered records. -/
theorem claim_c1_release_order (targets : List String) (events : List Ev) :
    ((runMachine targets events).output
        = ((runMachine targets events).batches.map (fun b => b.map stripItem)).flatten
      ∧ ∀ b ∈ (runMachine targets events).batches, b.Pairwise lexKeyLe)
    ∧ (∀ l : List Item,
        releaseSort l
            = List.insertionSort catPriorityLe
                (List.insertionSort sectionRankLe (List.insertionSort idDescLe l))
          ∧ (releaseSort l).Pairwise lexKeyLe
          ∧ List.Perm (releaseSort l) l) := by
  have h := goodState_run targets events initState goodState_init
  exact ⟨⟨h.1, h.2⟩, fun l => ⟨rfl, releaseSort_sorted l, releaseSort_perm l⟩⟩

/-- C2 (amended): after an append the release fires exactly when the
buffer size has reached the admitted-identifier count; and when every
admitted identifier is accounted for by the buffer plus the outstanding
requests, resolving all outstanding requests fires the final release by
that same threshold check, emptying the buffer and emitting one output
record per admitted identifier.  (Identifiers admitted but filtered
before dispatch leave the threshold unreachable, see the
counterexample.) -/
theorem claim_c2_threshold (targets : List String) (s : MState) (k : Nat)
    (canonical : Option String) (h1texts : List String) (stub : Stub)
    (hk : s.outstanding[k]? = some stub) :
    ((step targets s (Ev.resolve k canonical h1texts)).batches.length
        = s.batches.length + 1 ↔ s.seen.length ≤ s.buffer.length + 1)
    ∧ (∀ out, s.outstanding = out → out ≠ [] →
        s.seen.length = s.buffer.length + out.length →
        (runFrom targets s (resolveEvents out.length)).buffer = []
          ∧ (runFrom targets s (resolveEvents out.length)).outstanding = []
          ∧ (runFrom targets s (resolveEvents out.length)).output.length
              = s.output.length + s.seen.length) := by
  constructor
  · constructor
    · intro hlen
      by_contra hnot
      rw [(step_resolve_eq targets s k canonical h1texts stub hk).2 hnot] at hlen
      simp at hlen
    · intro h
      rw [(step_resolve_eq targets s k canonical h1texts stub hk).1 h]
      simp
  · intro out hout hne hlen
    obtain ⟨hb, ho, hol, _⟩ := runFrom_drain targets out s hout hne hlen
    exact ⟨hb, ho, hol⟩

/-- C2 counterexample: in the two-entry run, the cs.CV entry is admitted
but filtered out, so after the last outstanding resolution completes --
the admitted count long stopped growing -- the threshold check compares
a buffer of one against a registry of two: no release fires, the output
stays empty, and the buffered record is never emitted, against the
claim's promise that the final release still fires and every buffered
record is eventually emitted. -/
theorem claim_c2_counterexample :
    (runMachine demoTargets demoEventsA).outstanding = []
    ∧ (runMachine demoTargets demoEventsA).buffer.length = 1
    ∧ (runMachine demoTargets demoEventsA).output = []
    ∧ (runMachine demoTargets demoEventsA).batches = []
    ∧ (runMachine demoTargets demoEventsA).seen.length = 2 := by
  exact ⟨by decide, by decide, by decide, by decide, by decide⟩

/-- Witness for C1: the one-entry run releases once; its output is the
concatenation of its batches and the released batch is sorted. -/
theorem claim_c1_release_order_witness :
    (runMachine demoTargets demoEventsB).output
        = ((runMachine demoTargets demoEventsB).batches.map (fun b => b.map stripItem)).flatten
    ∧ ([itemA] : List Item).Pairwise lexKeyLe :=
  ⟨(claim_c1_release_order demoTargets demoEventsB).1.1,
   (claim_c1_release_order demoTargets demoEventsB).1.2 [itemA] (by decide)⟩

/-- Witness for the amended C2 at the one-entry run: the trigger
equivalence holds at the pending state, and draining the single
outstanding request empties the buffer and emits one record. -/
theorem claim_c2_threshold_witness :
    ((step demoTargets demoStateB (Ev.resolve 0 none [])).batches.length
        = demoStateB.batches.length + 1
      ↔ demoStateB.seen.length ≤ demoStateB.buffer.length + 1)
    ∧ (runFrom demoTargets demoStateB (resolveEvents 1)).buffer = []
    ∧ (runFrom demoTargets demoStateB (resolveEvents 1)).outstanding = []
    ∧ (runFrom demoTargets demoStateB (resolveEvents 1)).output.length
        = demoStateB.output.length + demoStateB.seen.length := by
  have h := claim_c2_threshold demoTargets demoStateB 0 none [] stubA (by decide)
  have h2 := h.2 [stubA] (by decide) (by decide) (by decide)
  exact ⟨h.1, h2.1, h2.2.1, h2.2.2⟩

/-- Witness for C3 at the filtered cs.CV entry: it is admitted without a
stub, and its reappearance under the other target set is suppressed. -/
theorem claim_c3_admit_before_filter_witness :
    parseEntry demoTargets 0 "new" 0 [] dtB ddB = ([] ++ ["2401.00001"], none)
    ∧ parseEntry demoTargets2 1 "cross" 1 ([] ++ ["2401.00001"]) dtB ddB
        = ([] ++ ["2401.00001"], none) := by
  have h := claim_c3_admit_before_filter demoTargets 0 "new" 0 [] dtB ddB
    "https://arxiv.org/abs/2401.00001" "2401.00001"
    (by decide) (by decide) (by decide) (by decide) (by decide)
  exact ⟨h.1, h.2 demoTargets2 1 "cross" 1 dtB ddB
    "https://arxiv.org/abs/2401.00001" (by decide) (by decide)⟩

/-- Witness for C5 on the two-page math.QA/math.RT run: the fresh RT
stub's identifier was not admitted by the QA page, the QA stub's
identifier was admitted by the QA page, and the QA stub carries the QA
priority. -/
theorem claim_c5_dedup_witness :
    stubC.id ∉ (parseListing demoTargets2 demoUrlQA demoBlocksB []).1
    ∧ stubA.id ∈ (parseListing demoTargets2 demoUrlQA demoBlocksB []).1
    ∧ stubA.cat_priority = catPriority (extractSourceCat demoUrlQA) :=
  ⟨(claim_c5_dedup demoTargets2 [] demoUrlQA demoUrlRT demoBlocksB demoBlocksRT).2.2.1
      stubC (by decide),
   (claim_c5_dedup demoTargets2 [] demoUrlQA demoUrlRT demoBlocksB demoBlocksRT).2.2.2.1
      stubA (by decide),
   (claim_c5_dedup demoTargets2 [] demoUrlQA demoUrlRT demoBlocksB demoBlocksRT).2.2.2.2
      stubA (by decide)⟩

/-- Witness for C6: the whitespace-only subject text fails open into a
stub with empty declared categories. -/
theorem claim_c6_filter_witness :
    subjectsTextOf ddEmpty = ""
    ∧ parseEntry demoTargets 0 "new" 0 [] dtA ddEmpty
        = ([] ++ ["2401.00002"],
           some { id := "2401.00002", sec := "new", abs := "https://arxiv.org/abs/2401.00002",
                  pdf := absToPdf "https://arxiv.org/abs/2401.00002",
                  categories := [], cat_priority := 0, section_rank := 0 }) :=
  ⟨by decide,
   (claim_c6_filter demoTargets 0 "new" 0 [] dtA ddEmpty
      "https://arxiv.org/abs/2401.00002" "2401.00002"
      (by decide) (by decide) (by decide)).2.1 (by decide)⟩

/-- Witness for C8: an unrecognized heading resets the state to other
with rank 3, and the stub of a demo list block carries the section state
the block was scanned under. -/
theorem claim_c8_section_state_witness :
    classifySection "Journal club" = ("other", 3)
    ∧ (stubA.sec = "new" ∧ stubA.section_rank = 0) :=
  ⟨(claim_c8_section_state demoTargets 0).2.2.2.2.2.2.2.2.1 "Journal club"
      (by decide) (by decide) (by decide),
   (claim_c8_section_state demoTargets 0).2.2.2.2.2.2.2.2.2.2.1 "new" 0 [(dtA, ddA)] []
      stubA (by decide)⟩

/-- Witness for C10: a link without the identifier shape is skipped
silently, the registry is untouched, and the scan continues. -/
theorem claim_c10_malformed_witness :
    parseEntry demoTargets 0 "new" 0 [] dtMal ddA = ([], none)
    ∧ processEntries demoTargets 0 "new" 0 [(dtMal, ddA)] []
        = processEntries demoTargets 0 "new" 0 [] [] := by
  have h := claim_c10_malformed demoTargets 0 "new" 0 [] dtMal ddA ?_
  · exact ⟨h.1, h.2 []⟩
  · intro url hu
    rw [show absHrefOf dtMal = some "https://arxiv.org/about" from by decide] at hu
    cases hu
    decide
